import Mathlib

/-!
Verification of the Bcfg2 lint plugin-orchestration and error-classification
engine (`src/lib/Bcfg2/Server/Lint/__init__.py`) against its natural-language
specification.  The Python module is shallowly embedded: the `ErrorHandler`
class becomes a record with explicit state passing, the `CLI` orchestrator's
`run`/`run_serverless_plugins`/`run_server_plugins` become functions whose
`Except` result models an exception escaping `run()`, and the pieces of the
Python standard library the module leans on (`posixpath`, `str.splitlines`,
`textwrap.TextWrapper.wrap`) are embedded as executable functions.
-/

/-- Whitespace characters of the Python 2 `str` type (`string.whitespace`):
space, tab, newline, vertical tab, form feed, carriage return. -/
def isPyWs (c : Char) : Bool :=
  c = ' ' || c = '\t' || c = '\n' || c = '\x0b' || c = '\x0c' || c = '\r'

/-- Python `str.lstrip()`: remove all leading whitespace characters. -/
def pyLstrip (s : String) : String :=
  String.mk (s.data.dropWhile isPyWs)

/-- Boolean test that `n` is a leading segment of `l`. -/
def listPre (n : List Char) (l : List Char) : Bool :=
  match n, l with
  | [], _ => true
  | _ :: _, [] => false
  | a :: as, b :: bs => a = b && listPre as bs

/-- Loop of `pySplitlines`: accumulate the current line (reversed) and emit a
line at each `\n`, `\r\n` or `\r` boundary, as Python 2 `str.splitlines()`
does; a trailing fragment is emitted without a terminator. -/
def splitlinesGo (acc : List Char) : List Char → List String
  | [] => if acc.isEmpty then [] else [String.mk acc.reverse]
  | c :: rest =>
    if c = '\n' then String.mk acc.reverse :: splitlinesGo [] rest
    else if c = '\r' then
      if listPre ['\n'] rest then String.mk acc.reverse :: splitlinesGo [] rest.tail
      else String.mk acc.reverse :: splitlinesGo [] rest
    else splitlinesGo (c :: acc) rest
termination_by l => l.length
decreasing_by all_goals simp_wf <;> omega

/-- Python `str.splitlines()` (without keepends). -/
def pySplitlines (s : String) : List String :=
  splitlinesGo [] s.data

/-- Python `posixpath.join` restricted to two arguments, as the module calls
it: an absolute second argument discards the first. -/
def pyJoin (a b : String) : String :=
  if listPre ['/'] b.data then b
  else if a = "" || a.data.getLast? = some '/' then a ++ b
  else a ++ "/" ++ b

/-- Split a character list on `'/'`, keeping empty components, like Python
`str.split('/')`. -/
def splitSlash : List Char → List (List Char)
  | [] => [[]]
  | c :: rest =>
    let r := splitSlash rest
    if c = '/' then [] :: r
    else
      match r with
      | h :: t => (c :: h) :: t
      | [] => [[c]]

/-- Python `posixpath.normpath`: collapse separators and `.`/`..` components,
keeping exactly two leading slashes when the input has exactly two. -/
def pyNormpath (p : String) : String :=
  if p = "" then "." else
  let l := p.data
  let slashes : Nat :=
    if listPre ['/'] l then
      (if listPre ['/', '/'] l && !(listPre ['/', '/', '/'] l) then 2 else 1)
    else 0
  let comps := splitSlash l
  let newComps := comps.foldl (fun acc comp =>
    if comp = [] || comp = ['.'] then acc
    else if comp ≠ ['.', '.'] || (slashes = 0 && acc = []) ||
            (acc.getLast? = some ['.', '.']) then acc ++ [comp]
    else if acc ≠ [] then acc.dropLast else acc) []
  let res := List.replicate slashes '/' ++ (newComps.intersperse ['/']).flatten
  if res = [] then "." else String.mk res

/-- Python `posixpath.abspath`, with the process working directory made an
explicit argument. -/
def pyAbspath (cwd p : String) : String :=
  if listPre ['/'] p.data then pyNormpath p else pyNormpath (pyJoin cwd p)

/-- Embedding of `Plugin.HandlesFile`: `files` is the optional file filter
(`self.files`), `repository` models `Bcfg2.Options.setup.repository`, and
`cwd` is the working directory that `os.path.abspath` consults.  The given
`fname` is matched against the filter as given, joined with the repository
root, made absolute, and joined-then-made-absolute. -/
def HandlesFile (files : Option (List String)) (repository cwd fname : String) : Bool :=
  match files with
  | none => true
  | some fs =>
    fs.contains fname || fs.contains (pyJoin repository fname) ||
    fs.contains (pyAbspath cwd fname) ||
    fs.contains (pyAbspath cwd (pyJoin repository fname))

/-- Levels of the logging calls the module performs. -/
inductive Level
  | debug
  | warning
  | error
deriving DecidableEq

/-- The three bound methods an error kind can be mapped to by
`ErrorHandler.RegisterErrors`: `self.warn`, `self.error`, `self.debug`. -/
inductive ErrAction
  | warn
  | error
  | debug
deriving DecidableEq

/-- Substring occurrence of `n` in a character list. -/
def inSub (n : List Char) : List Char → Bool
  | [] => n.isEmpty
  | c :: rest => listPre n (c :: rest) || inSub n rest

/-- Python substring containment, the `needle in haystack` test on `str`. -/
def pyInStr (needle hay : String) : Bool :=
  inSub needle.data hay.data

/-- The action selection inside `ErrorHandler.RegisterErrors`: an action
string containing `"warn"` maps to the warn handler, else one containing
`"err"` maps to the error handler, anything else to the silent debug
handler. -/
def classifyAction (action : String) : ErrAction :=
  if pyInStr "warn" action then .warn
  else if pyInStr "err" action then .error
  else .debug

/-- State of one `ErrorHandler`: the two counters, the registry of error
kinds (`self.errortypes`, a dict embedded as a first-match association
list), the text wrap function chosen at construction from the terminal
size, and the stream of log lines emitted so far. -/
structure ErrorHandler where
  errors : Nat
  warnings : Nat
  errortypes : List (String × ErrAction)
  wrapper : String → List String
  log : List (Level × String)

/-- One rawline's emission step inside `ErrorHandler._log`: while no line has
been emitted yet, the first wrapped line is lstripped and prefixed; all
later lines pass through unchanged. -/
def emitWrapped (pfx : String) (firstline : Bool) (lines : List String) :
    List String × Bool :=
  match firstline, lines with
  | false, ls => (ls, false)
  | true, [] => ([], true)
  | true, l :: ls => ((pfx ++ pyLstrip l) :: ls, false)

/-- The rawline loop of `ErrorHandler._log` over the splitlines of the
message. -/
def logLines (wrapper : String → List String) (pfx : String) :
    Bool → List String → List String
  | _, [] => []
  | firstline, raw :: raws =>
    let er := emitWrapped pfx firstline (wrapper raw)
    er.1 ++ logLines wrapper pfx er.2 raws

/-- `ErrorHandler._log`: split the message on its own line boundaries, wrap
each resulting line independently, and emit the wrapped lines, stripping
and prefixing only the very first emitted line. -/
def logRender (wrapper : String → List String) (pfx msg : String) : List String :=
  logLines wrapper pfx true (pySplitlines msg)

/-- `ErrorHandler.error`: count an error and log the message with the
`"ERROR: "` marker at error level. -/
def ErrorHandler.error (h : ErrorHandler) (msg : String) : ErrorHandler :=
  { h with errors := h.errors + 1,
           log := h.log ++ (logRender h.wrapper "ERROR: " msg).map
                    (fun l => (Level.error, l)) }

/-- `ErrorHandler.warn`: count a warning and log the message with the
`"WARNING: "` marker at warning level. -/
def ErrorHandler.warn (h : ErrorHandler) (msg : String) : ErrorHandler :=
  { h with warnings := h.warnings + 1,
           log := h.log ++ (logRender h.wrapper "WARNING: " msg).map
                    (fun l => (Level.warning, l)) }

/-- `ErrorHandler.debug`: log the message silently at debug level, counting
nothing. -/
def ErrorHandler.debug (h : ErrorHandler) (msg : String) : ErrorHandler :=
  { h with log := h.log ++ (logRender h.wrapper "" msg).map
                    (fun l => (Level.debug, l)) }

/-- `ErrorHandler.dispatch`: route a (kind, message) event to the registered
handler and append the debug trailer naming the kind; an unregistered kind
is handled by `error` and also logs the "Unknown error" diagnostic at
warning level.  The function is total: no dispatch raises. -/
def ErrorHandler.dispatch (h : ErrorHandler) (err msg : String) : ErrorHandler :=
  match List.lookup err h.errortypes with
  | some a =>
    let h1 := match a with
      | .warn => h.warn msg
      | .error => h.error msg
      | .debug => h.debug msg
    { h1 with log := h1.log ++ [(Level.debug, "    (" ++ err ++ ")")] }
  | none =>
    let h1 := h.error msg
    { h1 with log := h1.log ++ [(Level.warning, "Unknown error " ++ err)] }

/-- `ErrorHandler.RegisterErrors`: register each (kind, action) pair of the
dict, skipping kinds that already have an entry. -/
def ErrorHandler.RegisterErrors (h : ErrorHandler) (errs : List (String × String)) :
    ErrorHandler :=
  errs.foldl (fun acc e =>
    if (List.lookup e.1 acc.errortypes).isSome then acc
    else { acc with errortypes := acc.errortypes ++ [(e.1, classifyAction e.2)] }) h

/-- `ErrorHandler.__init__`: counters start at zero, the registry empty; the
wrap function is a parameter abstracting the terminal-size probe; an
optional initial error dict is registered. -/
def ErrorHandler.init (wrapper : String → List String)
    (errs : Option (List (String × String))) : ErrorHandler :=
  let h : ErrorHandler :=
    { errors := 0, warnings := 0, errortypes := [], wrapper := wrapper, log := [] }
  match errs with
  | none => h
  | some e => h.RegisterErrors e

/-- Severity with which `dispatch` resolves a kind against a registry: the
registered action, or the error handler for unregistered kinds. -/
def resolvedAction (reg : List (String × ErrAction)) (kind : String) : ErrAction :=
  (List.lookup kind reg).getD .error

/-- A lint plugin as the orchestrator sees it: the error dict its `Errors`
classmethod declares, and the behavior of its `Run` method, which reads and
returns the shared handler state and may raise (modeled by `some` exception
text).  Plugin bodies live outside this module and are unconstrained. -/
structure Plugin where
  Errors : List (String × String)
  Run : ErrorHandler → ErrorHandler × Option String

/-- Construction plus run of one plugin: `Plugin.__init__` registers the
declared errors on the shared handler before `Run` executes. -/
def runPlugin (p : Plugin) (h : ErrorHandler) : ErrorHandler × Option String :=
  p.Run (h.RegisterErrors p.Errors)

/-- State of the `CLI` orchestrator after `__init__`: the `--list-errors`
flag, the discovered plugins partitioned into serverless and
server-requiring, and the shared error handler. -/
structure CLI where
  list_errors : Bool
  serverlessplugins : List Plugin
  serverplugins : List Plugin
  errorhandler : ErrorHandler

/-- `CLI.run_serverless_plugins`: construct and run each serverless plugin in
order.  There is no try/except around `Run()`, so an exception from one
plugin propagates at once and the remaining plugins are not run. -/
def CLI.run_serverless_plugins (ps : List Plugin) (h : ErrorHandler) :
    ErrorHandler × Option String :=
  match ps with
  | [] => (h, none)
  | p :: rest =>
    match runPlugin p h with
    | (h1, none) => CLI.run_serverless_plugins rest h1
    | (h1, some e) => (h1, some e)

/-- `CLI.run_server_plugins`: run each server-requiring plugin in order
against the acquired core.  The core handle and its try/finally shutdown are
external effects with no bearing on the handler state; an exception from a
plugin still propagates (after the shutdown), so later plugins are not
run. -/
def CLI.run_server_plugins (ps : List Plugin) (h : ErrorHandler) :
    ErrorHandler × Option String :=
  match ps with
  | [] => (h, none)
  | p :: rest =>
    match runPlugin p h with
    | (h1, none) => CLI.run_server_plugins rest h1
    | (h1, some e) => (h1, some e)

/-- `CLI.run`: the whole run.  `Except.ok (code, h)` is a completed run with
its exit code and final handler state; `Except.error e` is an exception
escaping `run()` (a plugin fault), which yields no exit code.  The
`--list-errors` branch registers every plugin's declared errors and prints
the table without constructing or running any plugin. -/
def CLI.run (c : CLI) : Except String (Nat × ErrorHandler) :=
  if c.list_errors then
    Except.ok (0, (c.serverplugins ++ c.serverlessplugins).foldl
      (fun h p => h.RegisterErrors p.Errors) c.errorhandler)
  else if c.serverplugins.isEmpty && c.serverlessplugins.isEmpty then
    Except.ok (1, c.errorhandler)
  else
    match CLI.run_serverless_plugins c.serverlessplugins c.errorhandler with
    | (_, some e) => Except.error e
    | (h1, none) =>
      match (if c.serverplugins.isEmpty then (h1, none)
             else if h1.errors ≠ 0 then (h1, none)
             else CLI.run_server_plugins c.serverplugins h1) with
      | (_, some e) => Except.error e
      | (h2, none) =>
        Except.ok ((if h2.errors ≠ 0 then 2 else if h2.warnings ≠ 0 then 3 else 0), h2)

/-- Count of events of a list whose kind resolves to the given action. -/
def countResolved (reg : List (String × ErrAction)) (a : ErrAction)
    (events : List (String × String)) : Nat :=
  (events.filter (fun e => resolvedAction reg e.1 == a)).length

/-- Fold a sequence of (kind, message) dispatch events over a handler. -/
def dispatchAll (h : ErrorHandler) (events : List (String × String)) : ErrorHandler :=
  events.foldl (fun acc e => acc.dispatch e.1 e.2) h

/-- A pass-through wrap function, the `lambda s: [s]` the source installs when
no terminal width is detected. -/
def demoWrapper : String → List String := fun s => [s]

/-- Demo plugin that declares one error kind and dispatches one finding. -/
def demoPluginError : Plugin :=
  { Errors := [("dup-group", "error")],
    Run := fun h => (h.dispatch "dup-group" "found", none) }

/-- Demo plugin whose Run raises an unexpected exception. -/
def demoFaultPlugin : Plugin :=
  { Errors := [], Run := fun h => (h, some "boom") }

/-- Demo server-requiring plugin that dispatches one finding. -/
def demoServerPlugin : Plugin :=
  { Errors := [("stale-path", "warning")],
    Run := fun h => (h.dispatch "stale-path" "stale", none) }

/-- Demo CLI state with no plugins at all. -/
def demoEmptyCLI : CLI :=
  { list_errors := false, serverlessplugins := [], serverplugins := [],
    errorhandler := ErrorHandler.init demoWrapper none }

/-- Demo CLI state whose first serverless plugin faults. -/
def demoFaultCLI : CLI :=
  { list_errors := false,
    serverlessplugins := [demoFaultPlugin, demoPluginError],
    serverplugins := [],
    errorhandler := ErrorHandler.init demoWrapper none }

/-- Demo CLI state with an erroring serverless plugin and a server plugin. -/
def demoSkipCLI : CLI :=
  { list_errors := false,
    serverlessplugins := [demoPluginError],
    serverplugins := [demoServerPlugin],
    errorhandler := ErrorHandler.init demoWrapper none }

/-- Python `str.expandtabs(8)` loop: a tab advances the column to the next
multiple of 8, newline and carriage return reset the column, everything
else advances it by one. -/
def expandtabsGo (col : Nat) : List Char → List Char
  | [] => []
  | c :: rest =>
    if c = '\t' then
      List.replicate (8 - col % 8) ' ' ++ expandtabsGo (col + (8 - col % 8)) rest
    else if c = '\n' || c = '\r' then c :: expandtabsGo 0 rest
    else c :: expandtabsGo (col + 1) rest

/-- `textwrap.TextWrapper._munge_whitespace` with the default options:
expand tabs, then map each remaining whitespace character to a plain
space. -/
def munge (l : List Char) : List Char :=
  (expandtabsGo 0 l).map (fun c => if isPyWs c then ' ' else c)

/-- True when every character of the chunk is a space; matches the
`chunk.strip() == ''` tests of textwrap, since after munging the only
whitespace character left is the space. -/
def isSpaceChunk (c : List Char) : Bool :=
  c.all (fun x => x = ' ')

/-- A chunk is homogeneous when it is all spaces or free of spaces; the
chunk splitter only produces such chunks and the wrap loop preserves
them. -/
def homogChunk (c : List Char) : Bool :=
  isSpaceChunk c || c.all (fun x => !(x == ' '))

/-- Some chunk of the list contains a non-space character. -/
def hasWord (cs : List (List Char)) : Bool :=
  cs.any (fun c => !(isSpaceChunk c))

/-- `textwrap.TextWrapper._split` with the simple whitespace splitter:
alternate maximal runs of spaces and of non-spaces.  The hyphen-splitting
refinement of `break_on_hyphens` is not modelled; on hyphen-free text the
chunks coincide with those of the default splitter. -/
def chunkGo : List Char → List (List Char)
  | [] => []
  | c :: cs =>
    (c :: cs.takeWhile (fun x => (x == ' ') == (c == ' '))) ::
      chunkGo (cs.dropWhile (fun x => (x == ' ') == (c == ' ')))
termination_by l => l.length
decreasing_by
  simp_wf
  exact Nat.lt_succ_of_le (List.dropWhile_sublist _).length_le

/-- The inner packing loop of `textwrap.TextWrapper._wrap_chunks`: greedily
move chunks onto the current line while the running length stays within the
width budget; returns the packed chunks and the remainder. -/
def packChunks (width : Int) (curLen : Int) :
    List (List Char) → List (List Char) × List (List Char)
  | [] => ([], [])
  | c :: rest =>
    if curLen + (c.length : Int) ≤ width then
      let r := packChunks width (curLen + (c.length : Int)) rest
      (c :: r.1, r.2)
    else ([], c :: rest)

/-- `textwrap.TextWrapper._handle_long_word` with `break_long_words` (the
default): chop `space_left` characters off the head chunk onto the current
line and leave the remainder in place.  The `break_on_hyphens` adjustment
never fires on hyphen-free chunks and is not modelled. -/
def handleLongWord (width curLen : Int) :
    List (List Char) → List (List Char) × List (List Char)
  | [] => ([], [])
  | c :: rest =>
    let spaceLeft : Int := if width < 1 then 1 else width - curLen
    ([c.take spaceLeft.toNat], c.drop spaceLeft.toNat :: rest)

/-- The `drop_whitespace` treatment of a leading whitespace chunk in
`_wrap_chunks`: it is removed only once at least one line has been
emitted. -/
def dropLeadingWs (first : Bool) (chunks : List (List Char)) : List (List Char) :=
  match chunks with
  | c :: rest => if !first && isSpaceChunk c then rest else chunks
  | [] => []

/-- The long-word stage of one `_wrap_chunks` iteration: when the head of
the remaining chunks alone exceeds the width budget, break it. -/
def longWordStage (width : Int) (cur rest : List (List Char)) :
    List (List Char) × List (List Char) :=
  match rest with
  | c :: _ =>
    if (c.length : Int) > width then
      handleLongWord width ((cur.map List.length).sum : Int) rest
    else ([], rest)
  | [] => ([], rest)

/-- The `drop_whitespace` treatment of a trailing whitespace chunk on the
current line. -/
def dropTrailingWs (cur : List (List Char)) : List (List Char) :=
  match cur.getLast? with
  | some lastC => if isSpaceChunk lastC then cur.dropLast else cur
  | none => cur

/-- One iteration of the while loop of `_wrap_chunks`, for the module's
two-space initial and subsequent indents (so the width budget is `w - 2`
on every line): optionally drop a leading whitespace chunk, pack greedily,
break an overlong head chunk, drop a trailing whitespace chunk, and emit
the indented line if anything is left.  Returns the emitted line (if any)
and the remaining chunks. -/
def makeLine (w : Nat) (first : Bool) (chunks : List (List Char)) :
    Option (List Char) × List (List Char) :=
  let width : Int := (w : Int) - 2
  let chunks1 := dropLeadingWs first chunks
  let pr := packChunks width 0 chunks1
  let hl := longWordStage width pr.1 pr.2
  let cur3 := dropTrailingWs (pr.1 ++ hl.1)
  match cur3 with
  | [] => (none, hl.2)
  | _ => (some (' ' :: ' ' :: cur3.flatten), hl.2)

/-- Termination measure for the wrap loop: total characters plus number of
chunks. -/
def chunksSize (cs : List (List Char)) : Nat :=
  (cs.map List.length).sum + cs.length

/-- The while loop of `_wrap_chunks`.  The dependent guard stops when an
iteration makes no progress; for widths at least 2 the guard never fires
(`makeLine_size_lt` below), while at width 1 the real textwrap loop runs
forever on a leading whitespace chunk reached before any line is emitted
(`c9_counterexample` below exhibits the repeating loop state), which the
guard cuts off. -/
def wrapChunks (w : Nat) (first : Bool) (chunks : List (List Char)) :
    List (List Char) :=
  match chunks with
  | [] => []
  | c :: cs =>
    let ml := makeLine w first (c :: cs)
    if h : chunksSize ml.2 < chunksSize (c :: cs) then
      match ml.1 with
      | some line => line :: wrapChunks w false ml.2
      | none => wrapChunks w first ml.2
    else
      match ml.1 with
      | some line => [line]
      | none => []
termination_by chunksSize chunks
decreasing_by all_goals exact h

/-- `textwrap.TextWrapper(initial_indent="  ", subsequent_indent="  ",
width=w).wrap(s)`: munge whitespace, split into chunks, run the
line-building loop. -/
def pyWrap (w : Nat) (s : String) : List String :=
  (wrapChunks w true (chunkGo (munge s.data))).map String.mk

/-- The `_log` renderer under a detected terminal width `w`, i.e. with the
`twrap.wrap` wrap function the source installs when the terminal size probe
succeeds. -/
def renderWidth (w : Nat) (pfx msg : String) : List String :=
  logRender (pyWrap w) pfx msg

/-! Helper lemmas about the ErrorHandler state machine. -/

theorem RegisterErrors_cons (h : ErrorHandler) (e : String × String)
    (rest : List (String × String)) :
    h.RegisterErrors (e :: rest) =
      (if (List.lookup e.1 h.errortypes).isSome then h
       else { h with errortypes :=
                h.errortypes ++ [(e.1, classifyAction e.2)] }).RegisterErrors rest := by
  simp only [ErrorHandler.RegisterErrors, List.foldl_cons]

theorem RegisterErrors_counts (errs : List (String × String)) (h : ErrorHandler) :
    (h.RegisterErrors errs).errors = h.errors ∧
    (h.RegisterErrors errs).warnings = h.warnings ∧
    (h.RegisterErrors errs).wrapper = h.wrapper ∧
    (h.RegisterErrors errs).log = h.log := by
  induction errs generalizing h with
  | nil => exact ⟨rfl, rfl, rfl, rfl⟩
  | cons e rest ih =>
    rw [RegisterErrors_cons]
    by_cases hc : (List.lookup e.1 h.errortypes).isSome
    · simpa [hc] using ih h
    · simpa [hc] using ih _

theorem dispatch_errortypes (h : ErrorHandler) (k m : String) :
    (h.dispatch k m).errortypes = h.errortypes := by
  unfold ErrorHandler.dispatch
  cases hl : List.lookup k h.errortypes with
  | none => simp [ErrorHandler.error]
  | some a =>
    cases a <;> simp [ErrorHandler.warn, ErrorHandler.error, ErrorHandler.debug]

theorem dispatch_errors (h : ErrorHandler) (k m : String) :
    (h.dispatch k m).errors =
      h.errors + (if resolvedAction h.errortypes k = ErrAction.error then 1 else 0) := by
  unfold ErrorHandler.dispatch resolvedAction
  cases hl : List.lookup k h.errortypes with
  | none => simp [ErrorHandler.error]
  | some a =>
    cases a <;> simp [ErrorHandler.warn, ErrorHandler.error, ErrorHandler.debug]

theorem dispatch_warnings (h : ErrorHandler) (k m : String) :
    (h.dispatch k m).warnings =
      h.warnings + (if resolvedAction h.errortypes k = ErrAction.warn then 1 else 0) := by
  unfold ErrorHandler.dispatch resolvedAction
  cases hl : List.lookup k h.errortypes with
  | none => simp [ErrorHandler.error]
  | some a =>
    cases a <;> simp [ErrorHandler.warn, ErrorHandler.error, ErrorHandler.debug]

theorem countResolved_cons (reg : List (String × ErrAction)) (a : ErrAction)
    (e : String × String) (rest : List (String × String)) :
    countResolved reg a (e :: rest) =
      (if resolvedAction reg e.1 = a then 1 else 0) + countResolved reg a rest := by
  simp only [countResolved, List.filter_cons]
  split <;> rename_i hc <;> simp_all <;> omega

theorem dispatchAll_counts (events : List (String × String)) (h : ErrorHandler) :
    (dispatchAll h events).errors =
      h.errors + countResolved h.errortypes ErrAction.error events ∧
    (dispatchAll h events).warnings =
      h.warnings + countResolved h.errortypes ErrAction.warn events := by
  induction events generalizing h with
  | nil => simp [dispatchAll, countResolved]
  | cons e rest ih =>
    have hstep : dispatchAll h (e :: rest) = dispatchAll (h.dispatch e.1 e.2) rest := by
      simp [dispatchAll]
    obtain ⟨ihe, ihw⟩ := ih (h.dispatch e.1 e.2)
    rw [hstep, ihe, ihw, dispatch_errortypes, dispatch_errors, dispatch_warnings,
        countResolved_cons, countResolved_cons]
    omega

theorem lookup_RegisterErrors_isSome (errs : List (String × String))
    (h : ErrorHandler) (k : String)
    (hs : (List.lookup k h.errortypes).isSome) :
    List.lookup k (h.RegisterErrors errs).errortypes = List.lookup k h.errortypes := by
  induction errs generalizing h with
  | nil => rfl
  | cons e rest ih =>
    rw [RegisterErrors_cons]
    by_cases hc : (List.lookup e.1 h.errortypes).isSome
    · simpa [hc] using ih h hs
    · simp only [hc, Bool.false_eq_true, if_false]
      have hk2 : List.lookup k
          ({ h with errortypes := h.errortypes ++ [(e.1, classifyAction e.2)] } :
            ErrorHandler).errortypes = List.lookup k h.errortypes := by
        simp only [List.lookup_append]
        cases hx : List.lookup k h.errortypes with
        | none => simp [hx] at hs
        | some a => simp
      rw [ih _ (by rw [hk2]; exact hs), hk2]

/-- C4: registering the same error kind twice keeps the action recorded by
the first registration; the second registration never overwrites, because
`RegisterErrors` skips kinds already present in `errortypes`.  The second
conjunct states the general form: once a kind is registered, no later
`RegisterErrors` call changes its entry. -/
theorem c4_register_first_wins (h : ErrorHandler) (k a1 a2 : String)
    (hk : List.lookup k h.errortypes = none) :
    (List.lookup k
        (((h.RegisterErrors [(k, a1)]).RegisterErrors [(k, a2)]).errortypes) =
      some (classifyAction a1)) ∧
    (∀ (h' : ErrorHandler) (errs : List (String × String)) (k' : String),
      (List.lookup k' h'.errortypes).isSome →
      List.lookup k' (h'.RegisterErrors errs).errortypes =
        List.lookup k' h'.errortypes) := by
  refine ⟨?_, fun h' errs k' hs => lookup_RegisterErrors_isSome errs h' k' hs⟩
  have h1 : List.lookup k (h.RegisterErrors [(k, a1)]).errortypes =
      some (classifyAction a1) := by
    rw [RegisterErrors_cons]
    simp only [hk, Option.isSome_none, Bool.false_eq_true, if_false]
    show List.lookup k (h.errortypes ++ [(k, classifyAction a1)]) = _
    rw [List.lookup_append, hk]
    simp
  rw [lookup_RegisterErrors_isSome _ _ _ (by rw [h1]; rfl), h1]

theorem c4_register_first_wins_witness :
    (List.lookup "dup-group"
        ((((ErrorHandler.init demoWrapper none).RegisterErrors
            [("dup-group", "error")]).RegisterErrors
            [("dup-group", "warning")]).errortypes) =
      some (classifyAction "error")) ∧
    (∀ (h' : ErrorHandler) (errs : List (String × String)) (k' : String),
      (List.lookup k' h'.errortypes).isSome →
      List.lookup k' (h'.RegisterErrors errs).errortypes =
        List.lookup k' h'.errortypes) :=
  c4_register_first_wins (ErrorHandler.init demoWrapper none)
    "dup-group" "error" "warning" rfl

/-- C5 counterexample: a kind declared with the action string "silent",
which names neither the warning nor the error handling, is classified to
the silent debug handler, not to the error handler, and dispatching it
leaves the error counter at zero. -/
theorem c5_counterexample :
    classifyAction "silent" = ErrAction.debug ∧
    List.lookup "dup-group"
        ((ErrorHandler.init demoWrapper none).RegisterErrors
          [("dup-group", "silent")]).errortypes = some ErrAction.debug ∧
    (((ErrorHandler.init demoWrapper none).RegisterErrors
        [("dup-group", "silent")]).dispatch "dup-group" "x").errors = 0 :=
  ⟨rfl, rfl, rfl⟩

/-- C5 amended: a kind registered with an action string that contains
neither "warn" nor "err" is classified as Silent (the debug handler), so
subsequent dispatches of it increment neither counter. -/
theorem c5_amended_silent_default (h : ErrorHandler) (k a m : String)
    (hw : pyInStr "warn" a = false) (he : pyInStr "err" a = false)
    (hk : List.lookup k h.errortypes = none) :
    classifyAction a = ErrAction.debug ∧
    List.lookup k (h.RegisterErrors [(k, a)]).errortypes = some ErrAction.debug ∧
    ((h.RegisterErrors [(k, a)]).dispatch k m).errors = h.errors ∧
    ((h.RegisterErrors [(k, a)]).dispatch k m).warnings = h.warnings := by
  have hcls : classifyAction a = ErrAction.debug := by
    simp [classifyAction, hw, he]
  have hreg : List.lookup k (h.RegisterErrors [(k, a)]).errortypes =
      some ErrAction.debug := by
    rw [RegisterErrors_cons]
    simp only [hk, Option.isSome_none, Bool.false_eq_true, if_false]
    show List.lookup k (h.errortypes ++ [(k, classifyAction a)]) = _
    rw [List.lookup_append, hk, hcls]
    simp
  have hres : resolvedAction (h.RegisterErrors [(k, a)]).errortypes k =
      ErrAction.debug := by
    simp [resolvedAction, hreg]
  obtain ⟨hce, hcw, -, -⟩ := RegisterErrors_counts [(k, a)] h
  refine ⟨hcls, hreg, ?_, ?_⟩
  · rw [dispatch_errors, hres, hce]; simp
  · rw [dispatch_warnings, hres, hcw]; simp

theorem c5_amended_silent_default_witness :
    classifyAction "silent" = ErrAction.debug ∧
    List.lookup "stale-path"
      ((ErrorHandler.init demoWrapper none).RegisterErrors
        [("stale-path", "silent")]).errortypes = some ErrAction.debug ∧
    (((ErrorHandler.init demoWrapper none).RegisterErrors
        [("stale-path", "silent")]).dispatch "stale-path" "m").errors = 0 ∧
    (((ErrorHandler.init demoWrapper none).RegisterErrors
        [("stale-path", "silent")]).dispatch "stale-path" "m").warnings = 0 :=
  c5_amended_silent_default (ErrorHandler.init demoWrapper none)
    "stale-path" "silent" "m" (by decide) (by decide) rfl

/-- C6: dispatching an unregistered kind increments the error counter by
exactly one, leaves the warning counter alone, and also logs the
warning-level "Unknown error" diagnostic, for every message; the embedded
dispatch is a total function, so no dispatch raises. -/
theorem c6_unregistered_dispatch (h : ErrorHandler) (k m : String)
    (hk : List.lookup k h.errortypes = none) :
    (h.dispatch k m).errors = h.errors + 1 ∧
    (h.dispatch k m).warnings = h.warnings ∧
    (Level.warning, "Unknown error " ++ k) ∈ (h.dispatch k m).log := by
  unfold ErrorHandler.dispatch
  rw [hk]
  simp [ErrorHandler.error]

theorem c6_unregistered_dispatch_witness :
    ((ErrorHandler.init demoWrapper none).dispatch "bogus" "whatever").errors = 0 + 1 ∧
    ((ErrorHandler.init demoWrapper none).dispatch "bogus" "whatever").warnings = 0 ∧
    (Level.warning, "Unknown error " ++ "bogus") ∈
      ((ErrorHandler.init demoWrapper none).dispatch "bogus" "whatever").log :=
  c6_unregistered_dispatch (ErrorHandler.init demoWrapper none) "bogus" "whatever" rfl

/-- C7: over any finite sequence of dispatch events applied to a freshly
initialised handler, the final error counter equals the number of events
whose kind resolves to the error handler (unregistered kinds resolve to
error) and the final warning counter equals the number resolving to the
warn handler; moreover no dispatch and no registration ever decreases
either counter. -/
theorem c7_counts_are_event_counts (wrapper : String → List String)
    (regs : List (String × String)) (events : List (String × String)) :
    ((dispatchAll (ErrorHandler.init wrapper (some regs)) events).errors =
      countResolved (ErrorHandler.init wrapper (some regs)).errortypes
        ErrAction.error events) ∧
    ((dispatchAll (ErrorHandler.init wrapper (some regs)) events).warnings =
      countResolved (ErrorHandler.init wrapper (some regs)).errortypes
        ErrAction.warn events) ∧
    (∀ (h : ErrorHandler) (k m : String),
      h.errors ≤ (h.dispatch k m).errors ∧ h.warnings ≤ (h.dispatch k m).warnings) ∧
    (∀ (h : ErrorHandler) (errs : List (String × String)),
      (h.RegisterErrors errs).errors = h.errors ∧
      (h.RegisterErrors errs).warnings = h.warnings) := by
  have hz := RegisterErrors_counts regs
    { errors := 0, warnings := 0, errortypes := [], wrapper := wrapper, log := [] }
  obtain ⟨he, hw⟩ := dispatchAll_counts events (ErrorHandler.init wrapper (some regs))
  refine ⟨?_, ?_, fun h k m => ⟨?_, ?_⟩,
    fun h errs => ⟨(RegisterErrors_counts errs h).1, (RegisterErrors_counts errs h).2.1⟩⟩
  · rw [he]
    have : (ErrorHandler.init wrapper (some regs)).errors = 0 := hz.1
    omega
  · rw [hw]
    have : (ErrorHandler.init wrapper (some regs)).warnings = 0 := hz.2.1
    omega
  · rw [dispatch_errors]; omega
  · rw [dispatch_warnings]; omega

/-- C1 counterexample: when the first serverless plugin's Run raises, the
exception propagates out of CLI.run, so the orchestrator run aborts rather
than continuing with the next plugin — had the second plugin run, the error
counter would be 1, but it stays 0 and no exit code is produced. -/
theorem c1_counterexample :
    CLI.run demoFaultCLI = Except.error "boom" ∧
    (CLI.run_serverless_plugins [demoFaultPlugin, demoPluginError]
      (ErrorHandler.init demoWrapper none)).1.errors = 0 ∧
    (CLI.run_serverless_plugins [demoPluginError]
      (ErrorHandler.init demoWrapper none)).1.errors = 1 :=
  ⟨rfl, rfl, rfl⟩

/-- C1 amended: a plugin fault is not caught: it propagates immediately, so
the remaining plugins of the phase never run (the phase result is the
faulting plugin's handler state and its exception, for every choice of
remaining plugins, in both phases) and CLI.run ends with the exception
instead of an exit code; the orchestrator itself adds nothing to the error
counter for the fault. -/
theorem c1_amended_fault_propagates (c : CLI) (p : Plugin) (rest : List Plugin)
    (h1 : ErrorHandler) (e : String)
    (hl : c.list_errors = false)
    (hsl : c.serverlessplugins = p :: rest)
    (hf : runPlugin p c.errorhandler = (h1, some e)) :
    (∀ rest' : List Plugin,
      CLI.run_serverless_plugins (p :: rest') c.errorhandler = (h1, some e) ∧
      CLI.run_server_plugins (p :: rest') c.errorhandler = (h1, some e)) ∧
    CLI.run c = Except.error e := by
  have hphase : ∀ rest' : List Plugin,
      CLI.run_serverless_plugins (p :: rest') c.errorhandler = (h1, some e) ∧
      CLI.run_server_plugins (p :: rest') c.errorhandler = (h1, some e) := by
    intro rest'
    constructor
    · unfold CLI.run_serverless_plugins
      rw [hf]
    · unfold CLI.run_server_plugins
      rw [hf]
  refine ⟨hphase, ?_⟩
  unfold CLI.run
  rw [hl, hsl]
  simp only [Bool.false_eq_true, if_false, List.isEmpty_cons, Bool.and_false,
    if_false]
  rw [(hphase rest).1]

theorem c1_amended_fault_propagates_witness :
    (∀ rest' : List Plugin,
      CLI.run_serverless_plugins (demoFaultPlugin :: rest')
        (ErrorHandler.init demoWrapper none) =
        (ErrorHandler.init demoWrapper none, some "boom") ∧
      CLI.run_server_plugins (demoFaultPlugin :: rest')
        (ErrorHandler.init demoWrapper none) =
        (ErrorHandler.init demoWrapper none, some "boom")) ∧
    CLI.run demoFaultCLI = Except.error "boom" :=
  c1_amended_fault_propagates demoFaultCLI demoFaultPlugin [demoPluginError]
    (ErrorHandler.init demoWrapper none) "boom" rfl rfl rfl

/-- C2: the exit code of a completed run is decided in priority order:
the list-errors path returns 0 after only registering declared errors
(no plugin is constructed or run); otherwise a run with no plugins at all
returns 1; otherwise a completed run returns 2 when the final error count
is positive (whatever the warning count), else 3 when the final warning
count is positive, else 0. -/
theorem c2_exit_code_priority (c : CLI) :
    (c.list_errors = true →
      CLI.run c = Except.ok (0, (c.serverplugins ++ c.serverlessplugins).foldl
        (fun h p => h.RegisterErrors p.Errors) c.errorhandler)) ∧
    (c.list_errors = false → c.serverplugins = [] → c.serverlessplugins = [] →
      CLI.run c = Except.ok (1, c.errorhandler)) ∧
    (∀ (code : Nat) (h2 : ErrorHandler),
      c.list_errors = false →
      ¬(c.serverplugins = [] ∧ c.serverlessplugins = []) →
      CLI.run c = Except.ok (code, h2) →
      code = if 0 < h2.errors then 2 else if 0 < h2.warnings then 3 else 0) := by
  refine ⟨fun hl => ?_, fun hl hsp hslp => ?_, fun code h2 hl hne hok => ?_⟩
  · unfold CLI.run
    rw [hl]
    simp
  · unfold CLI.run
    rw [hl, hsp, hslp]
    simp
  · unfold CLI.run at hok
    rw [hl] at hok
    simp only [Bool.false_eq_true, if_false] at hok
    have hemp : (c.serverplugins.isEmpty && c.serverlessplugins.isEmpty) = false := by
      rcases not_and_or.mp hne with hx | hx <;> simp [List.isEmpty_iff, hx]
    rw [hemp] at hok
    simp only [Bool.false_eq_true, if_false] at hok
    split at hok
    · exact absurd hok (by simp)
    · split at hok
      · exact absurd hok (by simp)
      · simp only [Except.ok.injEq, Prod.mk.injEq] at hok
        obtain ⟨hcode, hh⟩ := hok
        subst hh
        rw [← hcode]
        split_ifs <;> omega

theorem c2_exit_code_priority_witness :
    CLI.run demoEmptyCLI = Except.ok (1, ErrorHandler.init demoWrapper none) :=
  (c2_exit_code_priority demoEmptyCLI).2.1 rfl rfl rfl

/-- C3: whenever the serverless phase completes with a nonzero error count,
the server phase is skipped entirely: the run ends with exit code 2 and the
handler exactly as the serverless phase left it, and the result is the same
for every possible list of server-requiring plugins, so none of them can
have been constructed or run. -/
theorem c3_errors_skip_server_phase (c : CLI) (h1 : ErrorHandler)
    (hl : c.list_errors = false)
    (hne : c.serverlessplugins ≠ [])
    (hrun : CLI.run_serverless_plugins c.serverlessplugins c.errorhandler = (h1, none))
    (herr : h1.errors ≠ 0) :
    CLI.run c = Except.ok (2, h1) ∧
    ∀ ps : List Plugin, CLI.run { c with serverplugins := ps } = Except.ok (2, h1) := by
  have hmain : ∀ ps : List Plugin,
      CLI.run { c with serverplugins := ps } = Except.ok (2, h1) := by
    intro ps
    unfold CLI.run
    simp only [hl, Bool.false_eq_true, if_false]
    have hemp : ((({ c with serverplugins := ps } : CLI).serverplugins).isEmpty &&
        (({ c with serverplugins := ps } : CLI).serverlessplugins).isEmpty) = false := by
      simp [List.isEmpty_iff, hne]
    rw [hemp]
    simp only [Bool.false_eq_true, if_false]
    show (match CLI.run_serverless_plugins c.serverlessplugins c.errorhandler with
      | (_, some e) => Except.error e
      | (h1, none) =>
        match (if (ps : List Plugin).isEmpty then (h1, none)
               else if h1.errors ≠ 0 then (h1, none)
               else CLI.run_server_plugins ps h1) with
        | (_, some e) => Except.error e
        | (h2, none) =>
          Except.ok ((if h2.errors ≠ 0 then 2 else if h2.warnings ≠ 0 then 3 else 0),
            h2)) = Except.ok (2, h1)
    rw [hrun]
    cases hps : (ps : List Plugin).isEmpty <;> simp [herr]
  have hc : CLI.run c = Except.ok (2, h1) := by
    have := hmain c.serverplugins
    simpa using this
  exact ⟨hc, hmain⟩

theorem c3_errors_skip_server_phase_witness :
    CLI.run demoSkipCLI =
      Except.ok (2, (runPlugin demoPluginError (ErrorHandler.init demoWrapper none)).1) :=
  (c3_errors_skip_server_phase demoSkipCLI
    (runPlugin demoPluginError (ErrorHandler.init demoWrapper none)).1
    rfl (List.cons_ne_nil _ _) rfl (by decide)).1

/-- C8 counterexample: with repository /repo and working directory /cwd, the
filter containing only the bare relative entry "f" does not match the same
path given in repo-joined form /repo/f, although /repo/f is exactly
pyJoin "/repo" "f" and "f" is in the filter: the four-way match transforms
only the given path, never the filter entries. -/
theorem c8_counterexample :
    HandlesFile (some ["f"]) "/repo" "/cwd" "/repo/f" = false ∧
    pyJoin "/repo" "f" = "/repo/f" ∧
    "f" ∈ ["f"] := by
  refine ⟨by decide, by decide, by decide⟩

/-- C8 amended: HandlesFile returns true whenever the filter is absent, and
whenever some entry of the filter equals the given path itself, the path
joined with the repository root, the path made absolute, or the path
joined-then-made-absolute; a bare relative path therefore matches entries
stored in any of those four forms, but a path already given in joined or
absolute form is not matched back against bare relative entries. -/
theorem c8_amended_four_transforms (files : Option (List String))
    (repository cwd fname : String) :
    (files = none → HandlesFile files repository cwd fname = true) ∧
    (∀ (fs : List String) (e : String), files = some fs → e ∈ fs →
      (e = fname ∨ e = pyJoin repository fname ∨ e = pyAbspath cwd fname ∨
        e = pyAbspath cwd (pyJoin repository fname)) →
      HandlesFile files repository cwd fname = true) := by
  constructor
  · intro hf
    subst hf
    rfl
  · intro fs e hf he hforms
    subst hf
    have hc : ∀ x : String, e = x → fs.contains x = true := by
      intro x hx
      subst hx
      exact List.elem_eq_true_of_mem he
    simp only [HandlesFile, Bool.or_eq_true]
    rcases hforms with h | h | h | h
    · exact Or.inl (Or.inl (Or.inl (hc _ h)))
    · exact Or.inl (Or.inl (Or.inr (hc _ h)))
    · exact Or.inl (Or.inr (hc _ h))
    · exact Or.inr (hc _ h)

theorem c8_amended_four_transforms_witness :
    HandlesFile (some ["/repo/f"]) "/repo" "/cwd" "f" = true :=
  (c8_amended_four_transforms (some ["/repo/f"]) "/repo" "/cwd" "f").2
    ["/repo/f"] "/repo/f" rfl (by decide) (Or.inr (Or.inl (by decide)))

/-! Helper lemmas about the embedded textwrap machinery. -/

theorem chunksSize_append (a b : List (List Char)) :
    chunksSize (a ++ b) = chunksSize a + chunksSize b := by
  simp [chunksSize, List.sum_append]
  try omega

theorem chunksSize_pos (cs : List (List Char)) (h : cs ≠ []) :
    1 ≤ chunksSize cs := by
  cases cs with
  | nil => exact absurd rfl h
  | cons c rest => simp [chunksSize]; omega

theorem packChunks_cons (width curLen : Int) (c : List Char)
    (rest : List (List Char)) :
    packChunks width curLen (c :: rest) =
      if curLen + (c.length : Int) ≤ width then
        (c :: (packChunks width (curLen + (c.length : Int)) rest).1,
          (packChunks width (curLen + (c.length : Int)) rest).2)
      else ([], c :: rest) := by
  simp only [packChunks]

theorem packChunks_append (width curLen : Int) (cs : List (List Char)) :
    (packChunks width curLen cs).1 ++ (packChunks width curLen cs).2 = cs := by
  induction cs generalizing curLen with
  | nil => rfl
  | cons c rest ih =>
    rw [packChunks_cons]
    split
    · simp [ih]
    · simp

theorem packChunks_fst_nil (width curLen : Int) (c : List Char)
    (rest : List (List Char))
    (h : (packChunks width curLen (c :: rest)).1 = []) :
    width < curLen + (c.length : Int) ∧
    (packChunks width curLen (c :: rest)).2 = c :: rest := by
  rw [packChunks_cons] at h ⊢
  by_cases hle : curLen + (c.length : Int) ≤ width
  · rw [if_pos hle] at h
    simp at h
  · rw [if_neg hle]
    exact ⟨by omega, rfl⟩

theorem handleLongWord_snd_size (width curLen : Int) (c : List Char)
    (rest : List (List Char)) :
    chunksSize (handleLongWord width curLen (c :: rest)).2 ≤
      chunksSize (c :: rest) := by
  simp only [handleLongWord, chunksSize, List.map_cons, List.sum_cons,
    List.length_cons, List.length_drop]
  omega

theorem longWordStage_snd_size (width : Int) (cur rest : List (List Char)) :
    chunksSize (longWordStage width cur rest).2 ≤ chunksSize rest := by
  cases rest with
  | nil => simp [longWordStage]
  | cons c ds =>
    simp only [longWordStage]
    split
    · exact handleLongWord_snd_size width _ c ds
    · exact Nat.le_refl _

theorem makeLine_snd (w : Nat) (first : Bool) (chunks : List (List Char)) :
    (makeLine w first chunks).2 =
      (longWordStage ((w : Int) - 2)
        (packChunks ((w : Int) - 2) 0 (dropLeadingWs first chunks)).1
        (packChunks ((w : Int) - 2) 0 (dropLeadingWs first chunks)).2).2 := by
  simp only [makeLine]
  split <;> rfl

theorem makeLine_fst_shape (w : Nat) (first : Bool) (chunks : List (List Char))
    (l : List Char) (h : (makeLine w first chunks).1 = some l) :
    ∃ t, l = ' ' :: ' ' :: t := by
  simp only [makeLine] at h
  split at h
  · simp at h
  · simp only [Option.some.injEq] at h
    exact ⟨_, h.symm⟩

theorem packChunks_snd_size (width curLen : Int) (cs : List (List Char)) :
    chunksSize (packChunks width curLen cs).2 ≤ chunksSize cs := by
  have happ := packChunks_append width curLen cs
  have h2 := chunksSize_append (packChunks width curLen cs).1
    (packChunks width curLen cs).2
  rw [happ] at h2
  omega

theorem packChunks_snd_size_lt (width curLen : Int) (cs : List (List Char))
    (h : (packChunks width curLen cs).1 ≠ []) :
    chunksSize (packChunks width curLen cs).2 < chunksSize cs := by
  have happ := packChunks_append width curLen cs
  have h2 := chunksSize_append (packChunks width curLen cs).1
    (packChunks width curLen cs).2
  rw [happ] at h2
  have := chunksSize_pos _ h
  omega

theorem longWordStage_progress (width : Int) (hwid : 0 ≤ width) (c0 : List Char)
    (cs0 : List (List Char)) (hgt : width < (c0.length : Int)) :
    chunksSize (longWordStage width [] (c0 :: cs0)).2 < chunksSize (c0 :: cs0) := by
  simp only [longWordStage]
  rw [if_pos hgt]
  simp only [handleLongWord, List.map_nil, List.sum_nil, Nat.cast_zero]
  have he : 1 ≤ (if width < 1 then (1 : Int) else width - 0).toNat := by
    split <;> omega
  have hlen : 1 ≤ c0.length := by omega
  simp only [chunksSize, List.map_cons, List.sum_cons, List.length_cons,
    List.length_drop]
  omega

theorem makeLine_size_lt (w : Nat) (hw : 2 ≤ w) (first : Bool)
    (chunks : List (List Char)) (hne : chunks ≠ []) :
    chunksSize (makeLine w first chunks).2 < chunksSize chunks := by
  have hwid : (0 : Int) ≤ (w : Int) - 2 := by omega
  rw [makeLine_snd]
  rcases chunks with _ | ⟨c0, cs0⟩
  · exact absurd rfl hne
  by_cases hd : (!first && isSpaceChunk c0) = true
  · have hc1 : dropLeadingWs first (c0 :: cs0) = cs0 := by
      simp [dropLeadingWs, hd]
    rw [hc1]
    have h1 := longWordStage_snd_size ((w : Int) - 2)
      (packChunks ((w : Int) - 2) 0 cs0).1 (packChunks ((w : Int) - 2) 0 cs0).2
    have h2 := packChunks_snd_size ((w : Int) - 2) 0 cs0
    have h3 : chunksSize cs0 < chunksSize (c0 :: cs0) := by
      simp [chunksSize]
      omega
    omega
  · have hc1 : dropLeadingWs first (c0 :: cs0) = c0 :: cs0 := by
      simp only [dropLeadingWs]
      rw [if_neg]
      simpa using hd
    rw [hc1]
    by_cases hcur : (packChunks ((w : Int) - 2) 0 (c0 :: cs0)).1 = []
    · obtain ⟨hgt, hsnd⟩ := packChunks_fst_nil _ _ _ _ hcur
      rw [hsnd, hcur]
      exact longWordStage_progress _ hwid _ _ (by omega)
    · have h1 := longWordStage_snd_size ((w : Int) - 2)
        (packChunks ((w : Int) - 2) 0 (c0 :: cs0)).1
        (packChunks ((w : Int) - 2) 0 (c0 :: cs0)).2
      have h2 := packChunks_snd_size_lt ((w : Int) - 2) 0 (c0 :: cs0) hcur
      omega

theorem wrapChunks_cons (w : Nat) (hw : 2 ≤ w) (first : Bool) (c : List Char)
    (cs : List (List Char)) :
    wrapChunks w first (c :: cs) =
      match (makeLine w first (c :: cs)).1 with
      | some line => line :: wrapChunks w false (makeLine w first (c :: cs)).2
      | none => wrapChunks w first (makeLine w first (c :: cs)).2 := by
  rw [wrapChunks]
  rw [dif_pos (makeLine_size_lt w hw first (c :: cs) (by simp))]

theorem wrapChunks_shape_aux (w : Nat) (n : Nat) : ∀ (first : Bool)
    (chunks : List (List Char)), chunksSize chunks ≤ n →
    ∀ l ∈ wrapChunks w first chunks, ∃ t, l = ' ' :: ' ' :: t := by
  induction n with
  | zero =>
    intro first chunks hsz l hl
    cases chunks with
    | nil => simp [wrapChunks] at hl
    | cons c cs =>
      have := chunksSize_pos (c :: cs) (by simp)
      omega
  | succ n ih =>
    intro first chunks hsz l hl
    cases chunks with
    | nil => simp [wrapChunks] at hl
    | cons c cs =>
      rw [wrapChunks] at hl
      by_cases hg : chunksSize (makeLine w first (c :: cs)).2 < chunksSize (c :: cs)
      · rw [dif_pos hg] at hl
        rcases hml : (makeLine w first (c :: cs)).1 with _ | line
        · rw [hml] at hl
          exact ih first _ (by omega) l hl
        · rw [hml] at hl
          rcases List.mem_cons.mp hl with rfl | hmem
          · exact makeLine_fst_shape w first (c :: cs) l hml
          · exact ih false _ (by omega) l hmem
      · rw [dif_neg hg] at hl
        rcases hml : (makeLine w first (c :: cs)).1 with _ | line
        · rw [hml] at hl
          simp at hl
        · rw [hml] at hl
          rcases List.mem_cons.mp hl with rfl | hmem
          · exact makeLine_fst_shape w first (c :: cs) l hml
          · simp at hmem

theorem wrapChunks_shape (w : Nat) (first : Bool) (chunks : List (List Char))
    (l : List Char) (hl : l ∈ wrapChunks w first chunks) :
    ∃ t, l = ' ' :: ' ' :: t :=
  wrapChunks_shape_aux w (chunksSize chunks) first chunks (Nat.le_refl _) l hl

theorem pyWrap_shape (w : Nat) (s : String) (l : String) (hl : l ∈ pyWrap w s) :
    ∃ t, l = String.mk (' ' :: ' ' :: t) := by
  simp only [pyWrap, List.mem_map] at hl
  obtain ⟨lc, hlc, rfl⟩ := hl
  obtain ⟨t, rfl⟩ := wrapChunks_shape w true _ lc hlc
  exact ⟨t, rfl⟩

theorem longWordStage_cases (width : Int) (cur rest : List (List Char)) :
    ((rest = [] ∨ ∃ d ds, rest = d :: ds ∧ (d.length : Int) ≤ width) ∧
      longWordStage width cur rest = ([], rest)) ∨
    ∃ d ds e, rest = d :: ds ∧ width < (d.length : Int) ∧
      (cur = [] → 0 ≤ width → 1 ≤ e) ∧
      longWordStage width cur rest = ([d.take e], d.drop e :: ds) := by
  cases rest with
  | nil => exact Or.inl ⟨Or.inl rfl, by simp [longWordStage]⟩
  | cons d ds =>
    by_cases hgt : (d.length : Int) > width
    · refine Or.inr ⟨d, ds,
        (if width < 1 then (1 : Int)
         else width - ((cur.map List.length).sum : Int)).toNat, rfl, by omega,
        ?_, ?_⟩
      · intro hcur hwid
        subst hcur
        simp only [List.map_nil, List.sum_nil, Nat.cast_zero]
        split <;> omega
      · simp only [longWordStage]
        rw [if_pos hgt]
        simp [handleLongWord]
    · exact Or.inl ⟨Or.inr ⟨d, ds, rfl, by omega⟩,
        by simp only [longWordStage]; rw [if_neg hgt]⟩

theorem dropTrailingWs_eq_nil (cur : List (List Char)) (h : dropTrailingWs cur = []) :
    cur = [] ∨ ∃ x, cur = [x] ∧ isSpaceChunk x = true := by
  rcases List.eq_nil_or_concat cur with rfl | ⟨as, a, rfl⟩
  · exact Or.inl rfl
  · rw [List.concat_eq_append] at h ⊢
    simp only [dropTrailingWs, List.getLast?_concat] at h
    by_cases hsp : isSpaceChunk a = true
    · rw [if_pos hsp, List.dropLast_concat] at h
      subst h
      exact Or.inr ⟨a, rfl, hsp⟩
    · rw [if_neg hsp] at h
      simp at h

theorem makeLine_none (w : Nat) (first : Bool) (chunks : List (List Char))
    (h : (makeLine w first chunks).1 = none) :
    dropTrailingWs ((packChunks ((w : Int) - 2) 0 (dropLeadingWs first chunks)).1 ++
      (longWordStage ((w : Int) - 2)
        (packChunks ((w : Int) - 2) 0 (dropLeadingWs first chunks)).1
        (packChunks ((w : Int) - 2) 0 (dropLeadingWs first chunks)).2).1) = [] := by
  simp only [makeLine] at h
  split at h
  · rename_i heq
    exact heq
  · simp at h

theorem dropLeadingWs_subset (first : Bool) (chunks : List (List Char)) :
    ∀ ch ∈ dropLeadingWs first chunks, ch ∈ chunks := by
  intro ch hch
  cases chunks with
  | nil => simp [dropLeadingWs] at hch
  | cons c cs =>
    simp only [dropLeadingWs] at hch
    split at hch
    · exact List.mem_cons_of_mem c hch
    · exact hch

theorem hasWord_dropLeadingWs (first : Bool) (chunks : List (List Char))
    (h : hasWord chunks = true) : hasWord (dropLeadingWs first chunks) = true := by
  cases chunks with
  | nil => simp [hasWord] at h
  | cons c cs =>
    simp only [dropLeadingWs]
    split
    · rename_i hd
      have hsp : isSpaceChunk c = true := by
        have hd2 := hd
        simp only [Bool.and_eq_true] at hd2
        exact hd2.2
      simp only [hasWord, List.any_cons, hsp, Bool.not_true, Bool.false_or] at h
      exact h
    · exact h

theorem isSpaceChunk_sub {d e : List Char} (hsub : e ⊆ d)
    (h : isSpaceChunk d = true) : isSpaceChunk e = true := by
  simp only [isSpaceChunk, List.all_eq_true] at *
  exact fun x hx => h x (hsub hx)

theorem homogChunk_sub {d e : List Char} (hsub : e ⊆ d)
    (h : homogChunk d = true) : homogChunk e = true := by
  simp only [homogChunk, Bool.or_eq_true] at *
  rcases h with h | h
  · exact Or.inl (isSpaceChunk_sub hsub h)
  · refine Or.inr ?_
    simp only [List.all_eq_true] at *
    exact fun x hx => h x (hsub hx)

theorem makeLine_snd_homog (w : Nat) (first : Bool) (chunks : List (List Char))
    (hhom : ∀ ch ∈ chunks, homogChunk ch = true) :
    ∀ ch ∈ (makeLine w first chunks).2, homogChunk ch = true := by
  intro ch hch
  rw [makeLine_snd] at hch
  have happ := packChunks_append ((w : Int) - 2) 0 (dropLeadingWs first chunks)
  have hmemc1 : ∀ x ∈ dropLeadingWs first chunks, homogChunk x = true :=
    fun x hx => hhom x (dropLeadingWs_subset first chunks x hx)
  have hmemrest : ∀ x ∈ (packChunks ((w : Int) - 2) 0
      (dropLeadingWs first chunks)).2, homogChunk x = true := by
    intro x hx
    exact hmemc1 x (happ ▸ List.mem_append_right _ hx)
  rcases longWordStage_cases ((w : Int) - 2)
      (packChunks ((w : Int) - 2) 0 (dropLeadingWs first chunks)).1
      (packChunks ((w : Int) - 2) 0 (dropLeadingWs first chunks)).2 with
    ⟨-, heq⟩ | ⟨d, ds, e, hrest, -, -, heq⟩
  · rw [heq] at hch
    exact hmemrest ch hch
  · rw [heq] at hch
    rcases List.mem_cons.mp hch with rfl | hmem
    · exact homogChunk_sub (List.drop_subset _ _)
        (hmemrest d (by rw [hrest]; exact List.mem_cons_self d ds))
    · exact hmemrest ch (by rw [hrest]; exact List.mem_cons_of_mem d hmem)

theorem makeLine_none_hasWord (w : Nat) (hw : 2 ≤ w) (first : Bool)
    (chunks : List (List Char))
    (hhom : ∀ ch ∈ chunks, homogChunk ch = true)
    (hword : hasWord chunks = true)
    (hnone : (makeLine w first chunks).1 = none) :
    hasWord (makeLine w first chunks).2 = true := by
  have hwid : (0 : Int) ≤ (w : Int) - 2 := by omega
  have hword1 : hasWord (dropLeadingWs first chunks) = true :=
    hasWord_dropLeadingWs first chunks hword
  have hhom1 : ∀ ch ∈ dropLeadingWs first chunks, homogChunk ch = true :=
    fun ch hch => hhom ch (dropLeadingWs_subset first chunks ch hch)
  have happ := packChunks_append ((w : Int) - 2) 0 (dropLeadingWs first chunks)
  have hnil := makeLine_none w first chunks hnone
  rw [makeLine_snd]
  rcases longWordStage_cases ((w : Int) - 2)
      (packChunks ((w : Int) - 2) 0 (dropLeadingWs first chunks)).1
      (packChunks ((w : Int) - 2) 0 (dropLeadingWs first chunks)).2 with
    ⟨hno, heq⟩ | ⟨d, ds, e, hrest, hgt, hge, heq⟩
  · rw [heq]
    rw [heq] at hnil
    simp only [List.append_nil] at hnil
    rcases dropTrailingWs_eq_nil _ hnil with hcurnil | ⟨x, hxeq, hx⟩
    · rw [hcurnil] at happ
      simp only [List.nil_append] at happ
      rcases hno with hrnil | ⟨d, ds, hrest, hle⟩
      · rw [hrnil] at happ
        rw [← happ] at hword1
        simp [hasWord] at hword1
      · have hc1eq : dropLeadingWs first chunks = d :: ds := by
          rw [← happ, hrest]
        have hfst : (packChunks ((w : Int) - 2) 0 (d :: ds)).1 = [] := by
          rw [← hc1eq]
          exact hcurnil
        obtain ⟨hlt, -⟩ := packChunks_fst_nil _ _ _ _ hfst
        omega
    · have hc1 : dropLeadingWs first chunks =
          x :: (packChunks ((w : Int) - 2) 0 (dropLeadingWs first chunks)).2 := by
        conv_lhs => rw [← happ]
        rw [hxeq]
        rfl
      rw [hc1] at hword1
      simp only [hasWord, List.any_cons, hx, Bool.not_true, Bool.false_or] at hword1
      exact hword1
  · rw [heq]
    rw [heq] at hnil
    rcases dropTrailingWs_eq_nil _ hnil with habs | ⟨x, hxeq, hx⟩
    · simp at habs
    · have hlen := congrArg List.length hxeq
      simp only [List.length_append, List.length_cons, List.length_nil] at hlen
      have hcurnil : (packChunks ((w : Int) - 2) 0
          (dropLeadingWs first chunks)).1 = [] := by
        have : (packChunks ((w : Int) - 2) 0
            (dropLeadingWs first chunks)).1.length = 0 := by omega
        exact List.length_eq_zero.mp this
      rw [hcurnil] at hxeq
      rw [hcurnil] at happ
      simp only [List.nil_append] at hxeq happ
      have hxval : d.take e = x := by
        injection hxeq
      have he1 : 1 ≤ e := hge hcurnil hwid
      have hd0 : d ≠ [] := by
        intro hdn
        subst hdn
        simp at hgt
        omega
      have hx0 : x ≠ [] := by
        rw [← hxval]
        intro hxn
        rcases List.take_eq_nil_iff.mp hxn with h1 | h1
        · omega
        · exact hd0 h1
      have hdmem : d ∈ dropLeadingWs first chunks := by
        rw [← happ, hrest]
        exact List.mem_cons_self d ds
      have hdsp : isSpaceChunk d = true := by
        have hdh := hhom1 d hdmem
        simp only [homogChunk, Bool.or_eq_true] at hdh
        rcases hdh with hdh | hdh
        · exact hdh
        · exfalso
          rcases hxc : x with _ | ⟨x0, xs⟩
          · exact hx0 hxc
          · have hx0d : x0 ∈ d := by
              have hx0t : x0 ∈ d.take e := by
                rw [hxval, hxc]
                exact List.mem_cons_self x0 xs
              exact List.take_subset e d hx0t
            have hns := List.all_eq_true.mp hdh x0 hx0d
            have hx2 : isSpaceChunk (x0 :: xs) = true := by
              rw [← hxc]
              exact hx
            simp only [isSpaceChunk] at hx2
            have hsp2 := List.all_eq_true.mp hx2 x0 (List.mem_cons_self x0 xs)
            simp at hns hsp2
            exact hns hsp2
      have hc1eq : dropLeadingWs first chunks = d :: ds := by
        rw [← happ, hrest]
      rw [hc1eq] at hword1
      simp only [hasWord, List.any_cons, hdsp, Bool.not_true, Bool.false_or]
        at hword1
      have hdr : isSpaceChunk (d.drop e) = true :=
        isSpaceChunk_sub (List.drop_subset _ _) hdsp
      simp only [hasWord, List.any_cons, hdr, Bool.not_true, Bool.false_or]
      exact hword1

theorem wrapChunks_ne_nil_aux (w : Nat) (hw : 2 ≤ w) (n : Nat) :
    ∀ (first : Bool) (chunks : List (List Char)), chunksSize chunks ≤ n →
    (∀ ch ∈ chunks, homogChunk ch = true) → hasWord chunks = true →
    wrapChunks w first chunks ≠ [] := by
  induction n with
  | zero =>
    intro first chunks hsz hhom hword
    cases chunks with
    | nil => simp [hasWord] at hword
    | cons c cs =>
      have := chunksSize_pos (c :: cs) (by simp)
      omega
  | succ n ih =>
    intro first chunks hsz hhom hword
    cases chunks with
    | nil => simp [hasWord] at hword
    | cons c cs =>
      rw [wrapChunks_cons w hw]
      have hlt := makeLine_size_lt w hw first (c :: cs) (by simp)
      rcases hml : (makeLine w first (c :: cs)).1 with _ | line
      · have hword2 := makeLine_none_hasWord w hw first (c :: cs) hhom hword hml
        have hhom2 := makeLine_snd_homog w first (c :: cs) hhom
        exact ih first _ (by omega) hhom2 hword2
      · simp

theorem chunkGo_flatten_aux (n : Nat) : ∀ l : List Char, l.length ≤ n →
    (chunkGo l).flatten = l := by
  induction n with
  | zero =>
    intro l h
    cases l with
    | nil => simp [chunkGo]
    | cons c cs => simp at h
  | succ n ih =>
    intro l h
    cases l with
    | nil => simp [chunkGo]
    | cons c cs =>
      rw [chunkGo]
      simp only [List.flatten_cons]
      rw [ih _ ?_]
      · simp [List.takeWhile_append_dropWhile]
      · have := (List.dropWhile_sublist
          (fun x => (x == ' ') == (c == ' ')) (l := cs)).length_le
        simp only [List.length_cons] at h
        omega

theorem chunkGo_flatten (l : List Char) : (chunkGo l).flatten = l :=
  chunkGo_flatten_aux l.length l (Nat.le_refl _)

theorem chunkGo_homog_aux (n : Nat) : ∀ l : List Char, l.length ≤ n →
    ∀ ch ∈ chunkGo l, homogChunk ch = true := by
  induction n with
  | zero =>
    intro l h ch hch
    cases l with
    | nil => simp [chunkGo] at hch
    | cons c cs => simp at h
  | succ n ih =>
    intro l h ch hch
    cases l with
    | nil => simp [chunkGo] at hch
    | cons c cs =>
      rw [chunkGo] at hch
      rcases List.mem_cons.mp hch with rfl | hmem
      · by_cases hc : c = ' '
        · subst hc
          simp only [homogChunk, Bool.or_eq_true]
          left
          simp only [isSpaceChunk, List.all_eq_true]
          intro x hx
          rcases List.mem_cons.mp hx with rfl | hx2
          · simp
          · have := List.mem_takeWhile_imp hx2
            simpa using this
        · simp only [homogChunk, Bool.or_eq_true]
          right
          simp only [List.all_eq_true]
          intro x hx
          rcases List.mem_cons.mp hx with rfl | hx2
          · simpa using hc
          · have := List.mem_takeWhile_imp hx2
            have hcb : (c == ' ') = false := by simpa using hc
            rw [hcb] at this
            simp at this ⊢
            exact this
      · refine ih _ ?_ ch hmem
        have := (List.dropWhile_sublist
          (fun x => (x == ' ') == (c == ' ')) (l := cs)).length_le
        simp only [List.length_cons] at h
        omega

theorem chunkGo_homog (l : List Char) : ∀ ch ∈ chunkGo l, homogChunk ch = true :=
  chunkGo_homog_aux l.length l (Nat.le_refl _)

theorem mem_expandtabsGo (l : List Char) (c : Char) (hn : c ≠ '\t') :
    ∀ col : Nat, c ∈ l → c ∈ expandtabsGo col l := by
  induction l with
  | nil => intro col hc; simp at hc
  | cons a rest ih =>
    intro col hc
    rw [expandtabsGo]
    rcases List.mem_cons.mp hc with rfl | hmem
    · rw [if_neg hn]
      split
      · exact List.mem_cons_self _ _
      · exact List.mem_cons_self _ _
    · split
      · exact List.mem_append_right _ (ih _ hmem)
      · split
        · exact List.mem_cons_of_mem _ (ih _ hmem)
        · exact List.mem_cons_of_mem _ (ih _ hmem)

theorem munge_mem (l : List Char) (c : Char) (hc : c ∈ l)
    (hn : isPyWs c = false) : c ∈ munge l := by
  have ht : c ≠ '\t' := by
    intro h
    subst h
    simp [isPyWs] at hn
  have h1 : c ∈ expandtabsGo 0 l := mem_expandtabsGo l c ht 0 hc
  simp only [munge, List.mem_map]
  exact ⟨c, h1, by simp [hn]⟩

theorem hasWord_chunkGo (l : List Char) (c : Char) (hc : c ∈ l) (hcs : c ≠ ' ') :
    hasWord (chunkGo l) = true := by
  have hfl := chunkGo_flatten l
  rw [← hfl] at hc
  rcases List.mem_flatten.mp hc with ⟨ch, hch, hcch⟩
  simp only [hasWord, List.any_eq_true]
  refine ⟨ch, hch, ?_⟩
  simp only [isSpaceChunk, Bool.not_eq_true', List.all_eq_false]
  exact ⟨c, hcch, by simpa using hcs⟩

theorem pyWrap_ne_nil (w : Nat) (hw : 2 ≤ w) (s : String)
    (hws : ∃ c ∈ s.data, isPyWs c = false) : pyWrap w s ≠ [] := by
  obtain ⟨c, hc, hn⟩ := hws
  have hm : c ∈ munge s.data := munge_mem s.data c hc hn
  have hcs : c ≠ ' ' := by
    intro h
    subst h
    simp [isPyWs] at hn
  have hword := hasWord_chunkGo (munge s.data) c hm hcs
  have hhom := chunkGo_homog (munge s.data)
  have := wrapChunks_ne_nil_aux w hw (chunksSize (chunkGo (munge s.data))) true
    (chunkGo (munge s.data)) (Nat.le_refl _) hhom hword
  simp only [pyWrap]
  intro hmap
  exact this (List.map_eq_nil.mp hmap)

theorem mk_data_eq (s : String) : String.mk s.data = s := rfl

theorem pyWrap_empty (w : Nat) : pyWrap w "" = [] := by
  simp [pyWrap, munge, expandtabsGo, chunkGo, wrapChunks]

theorem splitlinesGo_no_nl (l : List Char)
    (hnl : ∀ c ∈ l, c ≠ '\n' ∧ c ≠ '\r') : ∀ acc : List Char,
    splitlinesGo acc l =
      if (acc.reverse ++ l).isEmpty then [] else [String.mk (acc.reverse ++ l)] := by
  induction l with
  | nil =>
    intro acc
    rw [splitlinesGo]
    simp
  | cons c cs ih =>
    intro acc
    rw [splitlinesGo]
    have hc := hnl c (List.mem_cons_self c cs)
    rw [if_neg hc.1, if_neg hc.2]
    rw [ih (fun x hx => hnl x (List.mem_cons_of_mem c hx)) (c :: acc)]
    simp

theorem splitlinesGo_nl (l : List Char)
    (hnl : ∀ c ∈ l, c ≠ '\n' ∧ c ≠ '\r') : ∀ (acc r : List Char),
    splitlinesGo acc (l ++ '\n' :: r) =
      String.mk (acc.reverse ++ l) :: splitlinesGo [] r := by
  induction l with
  | nil =>
    intro acc r
    simp only [List.nil_append]
    rw [splitlinesGo]
    rw [if_pos rfl]
    simp
  | cons c cs ih =>
    intro acc r
    simp only [List.cons_append]
    rw [splitlinesGo]
    have hc := hnl c (List.mem_cons_self c cs)
    rw [if_neg hc.1, if_neg hc.2]
    rw [ih (fun x hx => hnl x (List.mem_cons_of_mem c hx)) (c :: acc) r]
    simp

theorem pySplitlines_two_paragraphs (p1 p2 : String)
    (h1 : ∀ c ∈ p1.data, c ≠ '\n' ∧ c ≠ '\r')
    (h2 : ∀ c ∈ p2.data, c ≠ '\n' ∧ c ≠ '\r')
    (hp2 : p2.data ≠ []) :
    pySplitlines (p1 ++ "\n\n" ++ p2) = [p1, "", p2] := by
  have hdata : (p1 ++ "\n\n" ++ p2).data = p1.data ++ '\n' :: ('\n' :: p2.data) := by
    simp only [String.data_append, List.append_assoc]
    rfl
  simp only [pySplitlines, hdata]
  rw [splitlinesGo_nl p1.data h1 [] ('\n' :: p2.data)]
  have hnl2 := splitlinesGo_nl [] (by simp) [] p2.data
  simp only [List.nil_append] at hnl2
  rw [hnl2]
  rw [splitlinesGo_no_nl p2.data h2 []]
  simp only [List.reverse_nil, List.nil_append]
  rw [if_neg (by simpa [List.isEmpty_iff] using hp2)]

theorem logLines_false (wr : String → List String) (pfx : String)
    (raws : List String) :
    logLines wr pfx false raws = (raws.map wr).flatten := by
  induction raws with
  | nil => rfl
  | cons r rs ih =>
    rw [logLines]
    simp only [emitWrapped]
    rw [ih]
    simp

theorem logLines_true_cons (wr : String → List String) (pfx raw : String)
    (raws : List String) (l : String) (ls : List String)
    (hwr : wr raw = l :: ls) :
    logLines wr pfx true (raw :: raws) =
      (pfx ++ pyLstrip l) :: (ls ++ logLines wr pfx false raws) := by
  rw [logLines, hwr]
  simp [emitWrapped]

theorem logLines_true_skip (wr : String → List String) (pfx raw : String)
    (raws : List String) (hwr : wr raw = []) :
    logLines wr pfx true (raw :: raws) = logLines wr pfx true raws := by
  rw [logLines, hwr]
  simp [emitWrapped]

theorem logLines_true_structure (w : Nat) (pfx : String) (raws : List String) :
    logLines (pyWrap w) pfx true raws = [] ∨
    ∃ l0 ls, logLines (pyWrap w) pfx true raws = (pfx ++ pyLstrip l0) :: ls ∧
      ∀ l2 ∈ ls, ∃ t2, l2 = String.mk (' ' :: ' ' :: t2) := by
  induction raws with
  | nil => exact Or.inl rfl
  | cons raw raws ih =>
    rcases hwr : pyWrap w raw with _ | ⟨l0, ls0⟩
    · rw [logLines_true_skip _ _ _ _ hwr]
      exact ih
    · rw [logLines_true_cons _ _ _ _ _ _ hwr]
      refine Or.inr ⟨l0, ls0 ++ logLines (pyWrap w) pfx false raws, rfl, ?_⟩
      intro l2 hl2
      rcases List.mem_append.mp hl2 with hm | hm
      · exact pyWrap_shape w raw l2 (by rw [hwr]; exact List.mem_cons_of_mem l0 hm)
      · rw [logLines_false] at hm
        rcases List.mem_flatten.mp hm with ⟨ls2, hls2, hmm⟩
        rcases List.mem_map.mp hls2 with ⟨raw2, hraw2, rfl⟩
        exact pyWrap_shape w raw2 l2 hmm

theorem dropWhile_idem (p : Char → Bool) (l : List Char) :
    (l.dropWhile p).dropWhile p = l.dropWhile p := by
  induction l with
  | nil => rfl
  | cons c cs ih =>
    by_cases hc : p c = true
    · simp [List.dropWhile_cons, hc, ih]
    · simp [List.dropWhile_cons, hc]

/-- C9 counterexample: at wrap width 1 the claim fails.  Wrapping the
paragraph " a" (chunks: a space chunk, then the word) makes the first loop
iteration emit no line and leave the state `[[], ['a']]`, and that state is
a fixed point of the loop body, still emitting no line — so the real
textwrap `_wrap_chunks` while-loop never terminates and the renderer never
emits the severity prefix on the first wrapped line of the first paragraph
(it never emits anything), although 1 is a positive wrap width. -/
theorem c9_counterexample :
    chunkGo (munge (" a" : String).data) = [[' '], ['a']] ∧
    makeLine 1 true [[' '], ['a']] = (none, [[], ['a']]) ∧
    makeLine 1 true [[], ['a']] = (none, [[], ['a']]) :=
  ⟨by simp [chunkGo, munge, expandtabsGo, isPyWs], rfl, rfl⟩

/-- C9 amended: for every wrap width of at least 2 (width 1 is excluded:
there the wrap loop need not terminate, see the counterexample), a message
of two non-blank single-line paragraphs separated by a blank line renders
with the severity prefix exactly on the first wrapped line of the first
paragraph, and the lines of the second paragraph are exactly the wrap of
that paragraph alone — each input line is wrapped independently, so no
content of paragraph one is joined onto a wrapped line of paragraph two —
while every line after the first carries the plain two-space indent and no
prefix. -/
theorem c9_two_paragraph_rendering (w : Nat) (hw : 2 ≤ w) (pfx p1 p2 : String)
    (hnl1 : ∀ c ∈ p1.data, c ≠ '\n' ∧ c ≠ '\r')
    (hnl2 : ∀ c ∈ p2.data, c ≠ '\n' ∧ c ≠ '\r')
    (hws1 : ∃ c ∈ p1.data, isPyWs c = false)
    (hws2 : ∃ c ∈ p2.data, isPyWs c = false) :
    ∃ l1 t1, pyWrap w p1 = l1 :: t1 ∧
      renderWidth w pfx (p1 ++ "\n\n" ++ p2) =
        (pfx ++ pyLstrip l1) :: (t1 ++ pyWrap w p2) ∧
      ∀ l ∈ t1 ++ pyWrap w p2, ∃ t, l = String.mk (' ' :: ' ' :: t) := by
  have hne1 := pyWrap_ne_nil w hw p1 hws1
  rcases hwr1 : pyWrap w p1 with _ | ⟨l1, t1⟩
  · exact absurd hwr1 hne1
  refine ⟨l1, t1, rfl, ?_, ?_⟩
  · have hp2ne : p2.data ≠ [] := by
      obtain ⟨c, hc, -⟩ := hws2
      intro h
      rw [h] at hc
      simp at hc
    unfold renderWidth logRender
    rw [pySplitlines_two_paragraphs p1 p2 hnl1 hnl2 hp2ne]
    rw [logLines_true_cons _ pfx p1 ["", p2] l1 t1 hwr1]
    rw [logLines_false]
    simp [pyWrap_empty]
  · intro l hl
    rcases List.mem_append.mp hl with hmem | hmem
    · exact pyWrap_shape w p1 l (by rw [hwr1]; exact List.mem_cons_of_mem l1 hmem)
    · exact pyWrap_shape w p2 l hmem

theorem c9_two_paragraph_rendering_witness :
    ∃ l1 t1, pyWrap 10 "hello world this is a test" = l1 :: t1 ∧
      renderWidth 10 "ERROR: "
          ("hello world this is a test" ++ "\n\n" ++ "second paragraph here") =
        ("ERROR: " ++ pyLstrip l1) :: (t1 ++ pyWrap 10 "second paragraph here") ∧
      ∀ l ∈ t1 ++ pyWrap 10 "second paragraph here",
        ∃ t, l = String.mk (' ' :: ' ' :: t) :=
  c9_two_paragraph_rendering 10 (by omega) "ERROR: "
    "hello world this is a test" "second paragraph here"
    (by decide) (by decide) (by decide) (by decide)

/-- C10: under the terminal wrap renderer (any width at least 2, where the
wrap loop is total), the very first emitted line of every logged message is
the prefix followed immediately by text with all leading whitespace
stripped — including the renderer's own two-space indent and any whitespace
the message itself starts with — while every continuation line keeps the
two-space indent. -/
theorem c10_first_line_fully_stripped (w : Nat) (hw : 2 ≤ w) (pfx msg : String)
    (l : String) (rest : List String)
    (hr : renderWidth w pfx msg = l :: rest) :
    (∃ t : List Char, l = pfx ++ String.mk t ∧ t.dropWhile isPyWs = t) ∧
    ∀ l2 ∈ rest, ∃ t2, l2 = String.mk (' ' :: ' ' :: t2) := by
  unfold renderWidth logRender at hr
  rcases logLines_true_structure w pfx (pySplitlines msg) with hnil | ⟨l0, ls, heq, hsh⟩
  · rw [hnil] at hr
    exact absurd hr (by simp)
  · rw [heq] at hr
    injection hr with h1 h2
    refine ⟨⟨(pyLstrip l0).data, ?_, ?_⟩, ?_⟩
    · rw [← h1, mk_data_eq]
    · simp only [pyLstrip]
      exact dropWhile_idem isPyWs l0.data
    · intro l2 hl2
      exact hsh l2 (h2 ▸ hl2)

theorem c10_first_line_fully_stripped_witness :
    (∃ t : List Char, "ERROR: hi" = "ERROR: " ++ String.mk t ∧
      t.dropWhile isPyWs = t) ∧
    ∀ l2 ∈ ["  there", "  everyone"], ∃ t2, l2 = String.mk (' ' :: ' ' :: t2) :=
  c10_first_line_fully_stripped 10 (by omega) "ERROR: " "   hi\nthere everyone"
    "ERROR: hi" ["  there", "  everyone"] (by
      simp [renderWidth, logRender, pySplitlines, splitlinesGo, logLines,
        emitWrapped, pyWrap, wrapChunks, makeLine, chunkGo, munge, expandtabsGo,
        isPyWs, dropLeadingWs, packChunks, longWordStage, handleLongWord,
        dropTrailingWs, chunksSize, isSpaceChunk, pyLstrip, listPre])
